import Mathlib

/-!
Verification of the msfs-layout-generator core against its specification.

This file is a shallow embedding, in Lean 4, of the TypeScript sources
under src/: the layout-generation orchestrator (src/utils/processLayout.ts),
the exclusion filter (src/utils/doExcludeFile.ts), the manifest size updater
(src/utils/doUpdateManifest.ts), the timestamp codec
(src/utils/getWindowsFileTime.ts) and the debounced change watcher
(src/cli.ts, function processChanges and the chokidar event handlers).

Filesystem effects are modelled by an explicit environment (Env) recording
the results the platform would return for each call (access, getAllFiles,
stat, readFile), and by an explicit effect record (Effects) of the writes
the run performs.  Machine numbers are modelled by Nat / Int: every numeric
computation the claims touch is exact in IEEE doubles at the relevant
magnitudes (file sizes, tick counts below 2^63), so Nat/Int arithmetic is
faithful.
-/

set_option maxRecDepth 8192

/-- Content entry of the layout document, from src/index.d.ts (type Content). -/
structure Content where
  path : String
  size : Nat
  date : Int
deriving DecidableEq, Repr

/-- Result of a successful stat call: byte size and modification time in
epoch milliseconds (models the Stats object of fs.stat). -/
structure FileStat where
  size : Nat
  mtimeMs : Int
deriving DecidableEq, Repr

/-- Metadata document after JSON.parse, from src/index.d.ts (type Manifest):
an object that may carry a total_package_size key; all other key/value pairs
are kept opaque in the rest field.  total_package_size = none models the key
being absent (undefined in JS). -/
structure Manifest where
  total_package_size : Option String
  rest : List (String × String)
deriving DecidableEq, Repr

/-- Options of processLayout, from src/index.d.ts (interface ProcessOptions).
Defaults follow the destructuring at processLayout.ts lines 23-30. -/
structure ProcessOptions where
  force : Bool := false
  quiet : Bool := false
  debug : Bool := false
  checkManifest : Bool := true
  skipManifestUpdate : Bool := false
  returnResult : Bool := false
deriving DecidableEq, Repr

/-- Result record of processLayout, from src/index.d.ts (interface
ProcessResult).  message = none models the field being absent. -/
structure ProcessResult where
  fileCount : Nat
  totalSize : Nat
  layoutPath : String
  manifestPath : String
  skippedFiles : Nat
  success : Bool
  message : Option String
deriving DecidableEq, Repr

/-- Errors that can escape processLayout: a plain Error(msg) or the
ReadingDirError thrown by getAllFiles (src/errors).  The
ManifestWritingError of doUpdateManifest never escapes processLayout
(it is swallowed by the catch at processLayout.ts lines 241-246). -/
inductive JsError where
  | error (msg : String)
  | readingDirError (msg : String)
deriving DecidableEq, Repr

/-- Outcome of one processLayout invocation: a returned ProcessResult
(returnResult = true), a plain void return, or a thrown error. -/
inductive Outcome where
  | ret (r : ProcessResult)
  | unit
  | thrown (e : JsError)
deriving DecidableEq, Repr

/-- Write effects of one run: the content array and serialized text written
to layout.json, and the manifest document written by doUpdateManifest.
none means the corresponding write did not happen. -/
structure Effects where
  layoutWrite : Option (List Content)
  layoutJson : Option String
  manifestWrite : Option Manifest
deriving DecidableEq, Repr

/-- Effects of a run that wrote nothing. -/
def noEffects : Effects := ⟨none, none, none⟩

/-- Environment of one run: the answers the filesystem gives to each call
processLayout makes.  scan is the result of getAllFiles (Except.error models
a thrown ReadingDirError); stat gives the per-file stat results of the main
loop; rel models path.relative(packageDir, f).split(path.sep).join(sep)
for sep = the forward slash; manifestDoc is the JSON.parse result of
manifest.json (none = unreadable or malformed); writeError, when some,
makes the writeFile call for layout.json throw. -/
structure Env where
  rootExists : Bool
  manifestExists : Bool
  layoutExists : Bool
  scan : Except String (List String)
  stat : String → Option FileStat
  rel : String → String
  manifestDoc : Option Manifest
  writeError : Option String

/-- Lower-casing of one character in the ASCII range, as
String.prototype.toLowerCase acts on the characters this program compares. -/
def charToLower (c : Char) : Char :=
  if 65 ≤ c.toNat ∧ c.toNat ≤ 90 then Char.ofNat (c.toNat + 32) else c

/-- Lower-casing of a whole string (ASCII range). -/
def strToLower (s : String) : String := String.mk (s.data.map charToLower)

/-- Last path segment of a forward-slash relative path; models
path.basename restricted to the normalized relative paths the code feeds
it (no trailing separator). -/
def basename (p : String) : String :=
  String.mk (p.data.foldl (fun acc c => if c = '/' then [] else acc ++ [c]) [])

/-- Test that the first character list is an initial segment of the second
(String.prototype.startsWith on the underlying characters). -/
def isPre : List Char → List Char → Bool
  | [], _ => true
  | _ :: _, [] => false
  | a :: as, b :: bs => decide (a = b) && isPre as bs

/-- Exclusion filter, translated from src/utils/doExcludeFile.ts.  The set
excludedFiles comes from src/constants/constants (not among the sources),
so it is passed as an explicit list parameter, lower-case as in the source. -/
def doExcludeFile (excludedFiles : List String) (relativePath : String) : Bool :=
  let fileName := strToLower (basename relativePath)
  if isPre "_cvt_/".data (strToLower relativePath).data then true
  else excludedFiles.any (fun x => decide (x = fileName))

/-- Day number (days since 1970-01-01) of January 1 of year y in the
proleptic Gregorian calendar, as ECMAScript's MakeDay computes it; used to
model new Date(year-01-01T00:00:00Z).getTime(). -/
def jan1EpochDays (y : Int) : Int :=
  365 * (y - 1970) + Int.fdiv (y - 1969) 4 - Int.fdiv (y - 1901) 100
    + Int.fdiv (y - 1601) 400

/-- Epoch milliseconds of 1601-01-01T00:00:00Z, models
new Date('1601-01-01T00:00:00Z').getTime() in getWindowsFileTime.ts. -/
def windowsEpochMs : Int := jan1EpochDays 1601 * 86400000

/-- Epoch milliseconds of 1970-01-01T00:00:00Z, models
new Date('1970-01-01T00:00:00Z').getTime() in getWindowsFileTime.ts. -/
def unixEpochMs : Int := jan1EpochDays 1970 * 86400000

/-- Timestamp codec, translated from src/utils/getWindowsFileTime.ts.  The
input Date is represented by its epoch milliseconds.  The JS computation
(date.getTime() - millisecondsToWindowsEpoch) * 10000 is exact in doubles
for realistic dates (the product is below 2^63 and divisible by a large
power of two), so Int arithmetic models it faithfully; Math.floor is the
identity on the integer-valued result. -/
def getWindowsFileTime (dateMs : Int) : Int :=
  let millisecondsToWindowsEpoch := windowsEpochMs - unixEpochMs
  (dateMs - millisecondsToWindowsEpoch) * 10000

/-- String.prototype.padStart(targetLength, pad) of JavaScript, for a
single padding character. -/
def padStart (s : String) (targetLength : Nat) (pad : Char) : String :=
  if targetLength ≤ s.length then s
  else String.mk (List.replicate (targetLength - s.length) pad) ++ s

/-- Manifest size updater, translated from src/utils/doUpdateManifest.ts.
readRes is the readFile + JSON.parse result for manifestPath (none models
the read or parse throwing).  Except.error is the thrown
ManifestWritingError; Except.ok w returns the write performed (w = none:
no write, the silent no-op when the total_package_size key is absent;
w = some m: the document m was written). -/
def doUpdateManifest (manifestPath : String) (readRes : Option Manifest)
    (totalPackageSize : Nat) : Except String (Option Manifest) :=
  match readRes with
  | none =>
      .error ("Failed to read JSON at " ++ manifestPath ++ ", size "
        ++ Nat.repr totalPackageSize ++ ".")
  | some manifest =>
      match manifest.total_package_size with
      | none => .ok none
      | some _ =>
          .ok (some { manifest with
            total_package_size :=
              some (padStart (Nat.repr totalPackageSize) 20 '0') })

/-- C7: getWindowsFileTime applied to the instant 1970-01-01T00:00:00.000Z
(epoch milliseconds zero) returns exactly the integer 116444736000000000. -/
theorem c7_epoch_tick_value : getWindowsFileTime 0 = 116444736000000000 := by
  decide

/-- C6: for every metadata document and total size, doUpdateManifest is a
silent no-op (no write at all) when the total_package_size key is absent,
and when the key is present it rewrites exactly that key with the decimal
representation of the total left-zero-padded to 20 characters, leaving the
other fields untouched. -/
theorem c6_manifest_update (m : Manifest) (total : Nat) :
    doUpdateManifest "manifest.json" (some m) total =
      .ok (match m.total_package_size with
        | none => none
        | some _ =>
            some ⟨some (padStart (Nat.repr total) 20 '0'), m.rest⟩) := by
  cases h : m.total_package_size <;>
    simp [doUpdateManifest, h]

/-- Three-way comparison of naturals. -/
def cmpNat (m n : Nat) : Ordering :=
  if m < n then .lt else if m = n then .eq else .gt

/-- Lexicographic three-way comparison of pairs of naturals. -/
def cmpPair (p q : Nat × Nat) : Ordering :=
  match cmpNat p.1 q.1 with
  | .eq => cmpNat p.2 q.2
  | o => o

/-- Lexicographic three-way comparison of lists, given an element
comparator; a proper prefix compares below the longer list. -/
def cmpList (cmp : α → α → Ordering) : List α → List α → Ordering
  | [], [] => .eq
  | [], _ :: _ => .lt
  | _ :: _, [] => .gt
  | a :: as, b :: bs =>
      match cmp a b with
      | .eq => cmpList cmp as bs
      | o => o

/-- Collation class of an ASCII code point in the root collation modelled
by localeCompare: letters above digits above everything else. -/
def ccClass (n : Nat) : Nat :=
  if (65 ≤ n ∧ n ≤ 90) ∨ (97 ≤ n ∧ n ≤ 122) then 2
  else if 48 ≤ n ∧ n ≤ 57 then 1 else 0

/-- Primary collation weight: upper-case letters are folded onto the
corresponding lower-case code point; all other code points stand for
themselves. -/
def ccPrim (n : Nat) : Nat := if 65 ≤ n ∧ n ≤ 90 then n + 32 else n

/-- Tertiary collation weight: lower case sorts before the equal-primary
upper case, as in the Unicode default collation. -/
def ccTert (n : Nat) : Nat := if 65 ≤ n ∧ n ≤ 90 then 1 else 0

/-- Primary key of a character: collation class then primary weight. -/
def primKeyChar (c : Char) : Nat × Nat := (ccClass c.toNat, ccPrim c.toNat)

/-- Tertiary key of a character. -/
def tertKeyChar (c : Char) : Nat := ccTert c.toNat

/-- Modelled platform primitive: JavaScript
a.localeCompare(b) under the default (root) locale, restricted to the
ASCII range, returned as an Ordering.  Primary pass: collation class and
case-folded weight, so that the letters compare case-insensitively and
sort after digits, which sort after punctuation; tertiary tie-break:
lower case before upper case.  This matches ICU root collation on the
alphanumeric inputs the claims exercise; in particular lower-case letters
of earlier alphabet position compare below upper-case letters of later
position, unlike ordinal code-point comparison. -/
def localeCompare (a b : String) : Ordering :=
  match cmpList cmpPair (a.data.map primKeyChar) (b.data.map primKeyChar) with
  | .eq => cmpList cmpNat (a.data.map tertKeyChar) (b.data.map tertKeyChar)
  | o => o

theorem cmpNat_refl (n : Nat) : cmpNat n n = .eq := by simp [cmpNat]

theorem cmpNat_eq_iff (m n : Nat) : cmpNat m n = .eq ↔ m = n := by
  rcases Nat.lt_trichotomy m n with h | h | h
  · simp [cmpNat, h]
    omega
  · simp [cmpNat, h]
  · have h1 : ¬ m < n := by omega
    have h2 : ¬ m = n := by omega
    simp [cmpNat, h1, h2]

theorem cmpNat_lt_iff (m n : Nat) : cmpNat m n = .lt ↔ m < n := by
  rcases Nat.lt_trichotomy m n with h | h | h
  · simp [cmpNat, h]
  · simp [cmpNat, h]
  · have h1 : ¬ m < n := by omega
    have h2 : ¬ m = n := by omega
    simp [cmpNat, h1, h2]

theorem cmpNat_symm (m n : Nat) : cmpNat m n = (cmpNat n m).swap := by
  rcases Nat.lt_trichotomy m n with h | h | h
  · have h1 : ¬ n < m := by omega
    have h2 : ¬ n = m := by omega
    simp [cmpNat, h, h1, h2, Ordering.swap]
  · simp [cmpNat, h, Ordering.swap]
  · have h1 : ¬ m < n := by omega
    have h2 : ¬ m = n := by omega
    simp [cmpNat, h, h1, h2, Ordering.swap]

theorem cmpNat_lt_trans {m n k : Nat} (h₁ : cmpNat m n = .lt)
    (h₂ : cmpNat n k = .lt) : cmpNat m k = .lt := by
  rw [cmpNat_lt_iff] at h₁ h₂ ⊢
  omega

theorem cmpPair_eq_iff (p q : Nat × Nat) : cmpPair p q = .eq ↔ p = q := by
  rcases p with ⟨a, b⟩; rcases q with ⟨c, d⟩
  simp only [cmpPair, Prod.mk.injEq]
  cases hac : cmpNat a c
  · constructor
    · intro h'; simp at h'
    · rintro ⟨rfl, rfl⟩
      rw [cmpNat_refl] at hac
      exact absurd hac (by decide)
  · obtain rfl := (cmpNat_eq_iff a c).mp hac
    constructor
    · intro h'; exact ⟨rfl, (cmpNat_eq_iff b d).mp h'⟩
    · rintro ⟨-, rfl⟩; exact cmpNat_refl b
  · constructor
    · intro h'; simp at h'
    · rintro ⟨rfl, rfl⟩
      rw [cmpNat_refl] at hac
      exact absurd hac (by decide)

theorem cmpPair_refl (p : Nat × Nat) : cmpPair p p = .eq :=
  (cmpPair_eq_iff p p).mpr rfl

theorem cmpPair_symm (p q : Nat × Nat) : cmpPair p q = (cmpPair q p).swap := by
  rcases p with ⟨a, b⟩; rcases q with ⟨c, d⟩
  simp only [cmpPair]
  rw [cmpNat_symm a c, cmpNat_symm b d]
  cases cmpNat c a <;> simp [Ordering.swap]

theorem cmpPair_lt_trans {p q r : Nat × Nat} (h₁ : cmpPair p q = .lt)
    (h₂ : cmpPair q r = .lt) : cmpPair p r = .lt := by
  rcases p with ⟨a, b⟩; rcases q with ⟨c, d⟩; rcases r with ⟨e, f⟩
  simp only [cmpPair] at h₁ h₂ ⊢
  cases hac : cmpNat a c <;> rw [hac] at h₁
  · cases hce : cmpNat c e <;> rw [hce] at h₂
    · rw [cmpNat_lt_trans hac hce]
    · obtain rfl := (cmpNat_eq_iff c e).mp hce
      rw [hac]
    · simp at h₂
  · obtain rfl := (cmpNat_eq_iff a c).mp hac
    cases hce : cmpNat a e
    · rfl
    · rw [hce] at h₂
      exact cmpNat_lt_trans h₁ h₂
    · rw [hce] at h₂; simp at h₂
  · simp at h₁

theorem cmpList_refl (cmp : α → α → Ordering) (hrefl : ∀ a, cmp a a = .eq) :
    ∀ l, cmpList cmp l l = .eq := by
  intro l
  induction l with
  | nil => rfl
  | cons a as ih => simp [cmpList, hrefl a, ih]

theorem cmpList_eq (cmp : α → α → Ordering)
    (heq : ∀ a b, cmp a b = .eq → a = b) :
    ∀ l₁ l₂, cmpList cmp l₁ l₂ = .eq → l₁ = l₂ := by
  intro l₁
  induction l₁ with
  | nil =>
      intro l₂ h
      cases l₂ with
      | nil => rfl
      | cons b bs => simp [cmpList] at h
  | cons a as ih =>
      intro l₂ h
      cases l₂ with
      | nil => simp [cmpList] at h
      | cons b bs =>
          simp only [cmpList] at h
          cases hab : cmp a b <;> rw [hab] at h
          · simp at h
          · obtain rfl := heq a b hab
            rw [ih bs h]
          · simp at h

theorem cmpList_symm (cmp : α → α → Ordering)
    (hsymm : ∀ a b, cmp a b = (cmp b a).swap) :
    ∀ l₁ l₂, cmpList cmp l₁ l₂ = (cmpList cmp l₂ l₁).swap := by
  intro l₁
  induction l₁ with
  | nil =>
      intro l₂
      cases l₂ <;> simp [cmpList, Ordering.swap]
  | cons a as ih =>
      intro l₂
      cases l₂ with
      | nil => simp [cmpList, Ordering.swap]
      | cons b bs =>
          simp only [cmpList]
          rw [hsymm a b]
          cases cmp b a <;> simp [Ordering.swap, ih bs]

theorem cmpList_lt_trans (cmp : α → α → Ordering)
    (heq : ∀ a b, cmp a b = .eq → a = b)
    (hlt : ∀ a b c, cmp a b = .lt → cmp b c = .lt → cmp a c = .lt) :
    ∀ l₁ l₂ l₃, cmpList cmp l₁ l₂ = .lt → cmpList cmp l₂ l₃ = .lt →
      cmpList cmp l₁ l₃ = .lt := by
  intro l₁
  induction l₁ with
  | nil =>
      intro l₂ l₃ h₁ h₂
      cases l₂ with
      | nil => simp [cmpList] at h₁
      | cons b bs =>
          cases l₃ with
          | nil => simp [cmpList] at h₂
          | cons c cs => rfl
  | cons a as ih =>
      intro l₂ l₃ h₁ h₂
      cases l₂ with
      | nil => simp [cmpList] at h₁
      | cons b bs =>
          cases l₃ with
          | nil => simp [cmpList] at h₂
          | cons c cs =>
              simp only [cmpList] at h₁ h₂ ⊢
              cases hab : cmp a b <;> rw [hab] at h₁
              · cases hbc : cmp b c <;> rw [hbc] at h₂
                · rw [hlt a b c hab hbc]
                · obtain rfl := heq b c hbc
                  rw [hab]
                · simp at h₂
              · obtain rfl := heq a b hab
                cases hbc : cmp a c <;> rw [hbc] at h₂
                · exact ih bs cs h₁ h₂
                · simp at h₂
              · simp at h₁

theorem charKey_inj (c d : Char) (hp : primKeyChar c = primKeyChar d)
    (ht : tertKeyChar c = tertKeyChar d) : c = d := by
  have hnat : c.toNat = d.toNat := by
    have hp2 : ccPrim c.toNat = ccPrim d.toNat := congrArg Prod.snd hp
    have ht2 : ccTert c.toNat = ccTert d.toNat := ht
    by_cases h1 : 65 ≤ c.toNat ∧ c.toNat ≤ 90 <;>
      by_cases h2 : 65 ≤ d.toNat ∧ d.toNat ≤ 90 <;>
      simp [ccPrim, ccTert, h1, h2] at hp2 ht2 <;> omega
  simpa [Char.ext_iff, UInt32.ext_iff] using hnat

theorem map_pair_inj {f : α → β} {g : α → γ}
    (hinj : ∀ a b, f a = f b → g a = g b → a = b) :
    ∀ l₁ l₂ : List α, l₁.map f = l₂.map f → l₁.map g = l₂.map g → l₁ = l₂ := by
  intro l₁
  induction l₁ with
  | nil =>
      intro l₂ h₁ _
      cases l₂ with
      | nil => rfl
      | cons b bs => simp at h₁
  | cons a as ih =>
      intro l₂ h₁ h₂
      cases l₂ with
      | nil => simp at h₁
      | cons b bs =>
          simp only [List.map_cons, List.cons.injEq] at h₁ h₂
          rw [hinj a b h₁.1 h₂.1, ih bs h₁.2 h₂.2]

theorem localeCompare_refl (s : String) : localeCompare s s = .eq := by
  unfold localeCompare
  rw [cmpList_refl cmpPair cmpPair_refl]
  exact cmpList_refl cmpNat cmpNat_refl _

theorem localeCompare_eq {a b : String} (h : localeCompare a b = .eq) :
    a = b := by
  unfold localeCompare at h
  cases hp : cmpList cmpPair (a.data.map primKeyChar) (b.data.map primKeyChar) <;>
    rw [hp] at h
  · simp at h
  · have h1 := cmpList_eq cmpPair
      (fun p q => (cmpPair_eq_iff p q).mp) _ _ hp
    have h2 := cmpList_eq cmpNat
      (fun p q => (cmpNat_eq_iff p q).mp) _ _ h
    have hdata := map_pair_inj charKey_inj a.data b.data h1 h2
    cases a; cases b
    exact congrArg String.mk hdata
  · simp at h

theorem localeCompare_symm (a b : String) :
    localeCompare a b = (localeCompare b a).swap := by
  unfold localeCompare
  rw [cmpList_symm cmpPair cmpPair_symm (a.data.map primKeyChar),
    cmpList_symm cmpNat (fun m n => cmpNat_symm m n) (a.data.map tertKeyChar)]
  cases cmpList cmpPair (b.data.map primKeyChar) (a.data.map primKeyChar) <;>
    simp [Ordering.swap]

theorem localeCompare_lt_trans {a b c : String}
    (h₁ : localeCompare a b = .lt) (h₂ : localeCompare b c = .lt) :
    localeCompare a c = .lt := by
  unfold localeCompare at h₁ h₂ ⊢
  cases hab : cmpList cmpPair (a.data.map primKeyChar) (b.data.map primKeyChar) <;>
    rw [hab] at h₁
  · cases hbc : cmpList cmpPair (b.data.map primKeyChar) (c.data.map primKeyChar) <;>
      rw [hbc] at h₂
    · rw [cmpList_lt_trans cmpPair (fun p q => (cmpPair_eq_iff p q).mp)
        (fun p q r => cmpPair_lt_trans) _ _ _ hab hbc]
    · have := cmpList_eq cmpPair (fun p q => (cmpPair_eq_iff p q).mp) _ _ hbc
      rw [this] at hab
      rw [hab]
    · simp at h₂
  · have hshift := cmpList_eq cmpPair (fun p q => (cmpPair_eq_iff p q).mp) _ _ hab
    rw [hshift]
    cases hbc : cmpList cmpPair (b.data.map primKeyChar) (c.data.map primKeyChar) <;>
      rw [hbc] at h₂
    · exact cmpList_lt_trans cmpNat (fun m n => (cmpNat_eq_iff m n).mp)
        (fun x y z => cmpNat_lt_trans) _ _ _ h₁ h₂
    · simp at h₂
  · simp at h₁

/-- Sort relation of the comparator at processLayout.ts line 223:
layout.content.sort((a, b) => a.path.localeCompare(b.path)), i.e. ascending
by localeCompare of the path fields. -/
def contentLe (a b : Content) : Prop := localeCompare a.path b.path ≠ .gt

instance : DecidableRel contentLe := fun a b =>
  inferInstanceAs (Decidable (localeCompare a.path b.path ≠ .gt))

instance : IsTotal Content contentLe where
  total a b := by
    unfold contentLe
    rcases h : localeCompare a.path b.path
    · left; simp [h]
    · left; simp [h]
    · right
      have hs := localeCompare_symm a.path b.path
      rw [h] at hs
      intro hg
      rw [hg] at hs
      simp [Ordering.swap] at hs

instance : IsTrans Content contentLe where
  trans a b c hab hbc := by
    unfold contentLe at hab hbc ⊢
    cases h1 : localeCompare a.path b.path
    · cases h2 : localeCompare b.path c.path
      · simp [localeCompare_lt_trans h1 h2]
      · have heq := localeCompare_eq h2
        rw [← heq]
        simp [h1]
      · exact absurd h2 hbc
    · have heq := localeCompare_eq h1
      rw [heq]
      exact hbc
    · exact absurd h1 hab

/-- Two sorted lists that are permutations of each other and have pairwise
distinct paths are equal: the sort of the content array has a unique result
whenever no two entries share a path. -/
theorem sorted_perm_pairwise_eq :
    ∀ {l₁ l₂ : List Content}, l₁.Perm l₂ → l₁.Sorted contentLe →
      l₂.Sorted contentLe →
      l₁.Pairwise (fun a b => a.path ≠ b.path) → l₁ = l₂ := by
  intro l₁
  induction l₁ with
  | nil =>
      intro l₂ hp _ _ _
      exact hp.nil_eq
  | cons a t₁ ih =>
      intro l₂ hp hs₁ hs₂ hpw
      cases l₂ with
      | nil => exact absurd hp.symm.nil_eq (by simp)
      | cons b t₂ =>
          by_cases hab : a = b
          · subst hab
            rw [ih (hp.cons_inv) hs₁.of_cons hs₂.of_cons
              (List.pairwise_cons.mp hpw).2]
          · have hb : b ∈ t₁ := by
              have := hp.symm.subset (List.mem_cons_self b t₂)
              rcases List.mem_cons.mp this with h | h
              · exact absurd h.symm hab
              · exact h
            have ha : a ∈ t₂ := by
              have := hp.subset (List.mem_cons_self a t₁)
              rcases List.mem_cons.mp this with h | h
              · exact absurd h hab
              · exact h
            have r1 : contentLe a b := List.rel_of_sorted_cons hs₁ b hb
            have r2 : contentLe b a := List.rel_of_sorted_cons hs₂ a ha
            have hpaths : a.path = b.path := by
              apply localeCompare_eq
              rcases h : localeCompare a.path b.path
              · have hs := localeCompare_symm a.path b.path
                rw [h] at hs
                rcases h' : localeCompare b.path a.path <;> rw [h'] at hs <;>
                  simp [Ordering.swap] at hs
                exact absurd h' r2
              · rfl
              · exact absurd h r1
            exact absurd hpaths ((List.pairwise_cons.mp hpw).1 b hb)

/-- Hexadecimal digit character (lower case), for JSON control escapes. -/
def hexDigit (n : Nat) : Char :=
  if n < 10 then Char.ofNat (48 + n) else Char.ofNat (87 + n)

/-- Escape of a single character as JSON.stringify escapes characters
inside string values: quote, backslash, the five short control escapes,
then the u-escape for the remaining control characters; everything else is
emitted verbatim. -/
def jsonEscapeChar (c : Char) : String :=
  if c = '"' then "\\\""
  else if c = '\\' then "\\\\"
  else if c = '\x08' then "\\b"
  else if c = '\t' then "\\t"
  else if c = '\n' then "\\n"
  else if c = '\x0c' then "\\f"
  else if c = '\r' then "\\r"
  else if c.toNat < 32 then
    String.mk ['\\', 'u', '0', '0', hexDigit (c.toNat / 16), hexDigit (c.toNat % 16)]
  else String.singleton c

/-- JSON string literal for s, per JSON.stringify. -/
def jsonStr (s : String) : String :=
  "\"" ++ String.join (s.data.map jsonEscapeChar) ++ "\""

/-- Decimal rendering of an integer, as JSON.stringify renders the
integer-valued numbers this program produces. -/
def intRepr (i : Int) : String :=
  if i < 0 then "-" ++ Nat.repr i.natAbs else Nat.repr i.natAbs

/-- Serialization of one content entry inside JSON.stringify(layout, null, 2):
entry objects sit two indentation levels deep, so their member lines are
indented six spaces and the closing brace four. -/
def serializeEntry (c : Content) : String :=
  "\x7b\n      \"path\": " ++ jsonStr c.path ++ ",\n      \"size\": "
    ++ Nat.repr c.size ++ ",\n      \"date\": " ++ intRepr c.date
    ++ "\n    \x7d"

/-- JSON.stringify(layout, null, 2) for the layout object with a nonempty
content array (processLayout only serializes after establishing the array
is nonempty; the empty array would render differently). -/
def serializeLayout (content : List Content) : String :=
  "\x7b\n  \"content\": [\n    "
    ++ String.intercalate ",\n    " (content.map serializeEntry)
    ++ "\n  ]\n\x7d"

/-- Replacement of every CRLF pair by a line feed on a character list,
modelling the .replace at processLayout.ts line 226. -/
def replaceCrLfAux : List Char → List Char
  | [] => []
  | '\r' :: '\n' :: rest => '\n' :: replaceCrLfAux rest
  | c :: rest => c :: replaceCrLfAux rest

/-- String form of the CRLF replacement. -/
def strReplaceCrLf (s : String) : String := String.mk (replaceCrLfAux s.data)

/-- Accumulator of the main for-loop of processLayout (lines 129-132 set up
these four mutable values; lines 159-198 update them per file). -/
structure BuildSt where
  totalPackageSize : Nat
  content : List Content
  hasLongPath : Bool
  excludedCount : Nat
deriving DecidableEq, Repr

/-- Body of the for-loop at processLayout.ts lines 159-198 for one file:
skip long paths entirely; otherwise compute the relative path and the
exclusion flag, stat the file (a failed stat counts the file as skipped and
moves on), add the size to the running total before the exclusion check,
and append a content entry only for included files. -/
def processFile (excluded : List String) (env : Env) (s : BuildSt)
    (file : String) : BuildSt :=
  if 259 < file.length then { s with hasLongPath := true }
  else
    let relativePath := env.rel file
    let isExcluded := doExcludeFile excluded relativePath
    match env.stat file with
    | none => { s with excludedCount := s.excludedCount + 1 }
    | some stats =>
        let s1 := { s with totalPackageSize := s.totalPackageSize + stats.size }
        if isExcluded then { s1 with excludedCount := s1.excludedCount + 1 }
        else
          { s1 with content := s1.content ++
              [{ path := relativePath, size := stats.size,
                 date := getWindowsFileTime stats.mtimeMs }] }

/-- The whole for-loop over the files returned by getAllFiles. -/
def buildContent (excluded : List String) (env : Env)
    (files : List String) : BuildSt :=
  files.foldl (processFile excluded env) ⟨0, [], false, 0⟩

/-- Post-validation phase of processLayout, translated from
src/utils/processLayout.ts lines 128-278, as a function of the getAllFiles
result: the ReadingDirError of the scan lands in the outer catch at line
262, which rethrows it in void mode and wraps its message in a failed
result otherwise; then the zero-files check, the per-file loop, the
zero-valid-files check, the sort by localeCompare, serialization with CRLF
normalization, the layout write (adding the written byte length to the
total, with a write failure landing in the outer catch), and the manifest
update, whose access check and doUpdateManifest call sit inside the
try/catch at lines 235-246 that silently skips on any error. -/
def processScanned (excluded : List String) (packageDir : String) (env : Env)
    (options : ProcessOptions)
    (scanRes : Except String (List String)) : Effects × Outcome :=
  let layoutPathFile := packageDir ++ "/layout.json"
  let manifestPath := packageDir ++ "/manifest.json"
  let failResult : String → Nat → ProcessResult := fun msg skipped =>
    ⟨0, 0, layoutPathFile, manifestPath, skipped, false, some msg⟩
  match scanRes with
    | .error e =>
        (noEffects,
          if options.returnResult then
            .ret (failResult ("Error processing " ++ packageDir ++ ": " ++ e) 0)
          else .thrown (.readingDirError e))
    | .ok allFiles =>
        if allFiles.length = 0 then
          let msg := "No files found in package directory"
          (noEffects,
            if options.returnResult then .ret (failResult msg 0)
            else .thrown (.error msg))
        else
          let st := buildContent excluded env allFiles
          if st.content.length = 0 then
            let msg := "No valid files to include in layout.json"
            (noEffects,
              if options.returnResult then .ret (failResult msg st.excludedCount)
              else .thrown (.error msg))
          else
            let sorted := List.insertionSort contentLe st.content
            let json := strReplaceCrLf (serializeLayout sorted)
            match env.writeError with
            | some we =>
                (noEffects,
                  if options.returnResult then
                    .ret (failResult
                      ("Error processing " ++ packageDir ++ ": " ++ we)
                      st.excludedCount)
                  else .thrown (.error we))
            | none =>
                let totalPackageSize := st.totalPackageSize + json.utf8ByteSize
                let manifestWrite :=
                  if !options.skipManifestUpdate && env.manifestExists then
                    match doUpdateManifest manifestPath env.manifestDoc
                        totalPackageSize with
                    | .ok w => w
                    | .error _ => none
                  else none
                ({ layoutWrite := some sorted, layoutJson := some json,
                   manifestWrite := manifestWrite },
                  if options.returnResult then
                    .ret ⟨sorted.length, totalPackageSize, layoutPathFile,
                      manifestPath, st.excludedCount, true, none⟩
                  else .unit)

/-- Orchestrator entry: the three validations of processLayout.ts lines
49-126, then the scanned-phase processing of the getAllFiles result. -/
def processLayout (excluded : List String) (packageDir : String) (env : Env)
    (options : ProcessOptions) : Effects × Outcome :=
  let layoutPathFile := packageDir ++ "/layout.json"
  let manifestPath := packageDir ++ "/manifest.json"
  let failResult : String → Nat → ProcessResult := fun msg skipped =>
    ⟨0, 0, layoutPathFile, manifestPath, skipped, false, some msg⟩
  if !env.rootExists then
    let msg := "Directory does not exist: " ++ packageDir
    (noEffects,
      if options.returnResult then .ret (failResult msg 0)
      else .thrown (.error msg))
  else if options.checkManifest && !env.manifestExists then
    let msg := "manifest.json not found in " ++ packageDir
    (noEffects,
      if options.returnResult then .ret (failResult msg 0)
      else .thrown (.error msg))
  else if env.layoutExists && !options.force then
    let msg := "layout.json already exists. Use --force to overwrite."
    (noEffects,
      if options.returnResult then .ret (failResult msg 0) else .unit)
  else
    processScanned excluded packageDir env options env.scan

/-- State of one watch session, from src/cli.ts lines 238-240: the
isProcessing busy flag, the pending debounce timer (stored as its absolute
fire time; none when no timer is pending), the changeCount counter, and
the number of regeneration runs started by the timer callback. -/
structure WatchState where
  isProcessing : Bool
  timer : Option Nat
  changeCount : Nat
  regens : Nat
deriving DecidableEq, Repr

/-- The processChanges handler of src/cli.ts lines 253-283, invoked at
absolute time now with debounce window w: when the busy flag is set it
returns immediately (only a debug line is printed; the state is untouched);
otherwise it clears any pending timer and schedules a new one w after now. -/
def processChanges (w now : Nat) (s : WatchState) : WatchState :=
  if s.isProcessing then s
  else { s with timer := some (now + w) }

/-- Start of the setTimeout callback body at src/cli.ts lines 262-265: the
timer handle is spent, the busy flag is set, changeCount is incremented and
a regeneration run begins. -/
def timerFire (s : WatchState) : WatchState :=
  { s with
    isProcessing := true
    timer := none
    changeCount := s.changeCount + 1
    regens := s.regens + 1 }

/-- The finally block at src/cli.ts lines 279-281: the regeneration in
flight completes and the busy flag clears. -/
def regenComplete (s : WatchState) : WatchState :=
  { s with isProcessing := false }

/-- Events of a watch-session trace: a qualifying filesystem event (every
chokidar add/change/unlink/addDir/unlinkDir handler calls processChanges),
the firing of the pending debounce timer, and the completion of the
in-flight regeneration, each stamped with its absolute time. -/
inductive WEvent where
  | fs (t : Nat)
  | fire (t : Nat)
  | done (t : Nat)
deriving DecidableEq, Repr

/-- Time stamp of an event. -/
def wtime : WEvent → Nat
  | .fs t => t
  | .fire t => t
  | .done t => t

/-- One step of the single-threaded event loop.  none marks an
inadmissible event: a timer only fires at its scheduled time, a
regeneration only completes while one is in flight, and no other callback
runs at a time a pending timer is already overdue (the event loop runs due
timer callbacks first). -/
def wstep (w : Nat) (s : WatchState) : WEvent → Option WatchState
  | .fs t =>
      match s.timer with
      | some ft => if ft < t then none else some (processChanges w t s)
      | none => some (processChanges w t s)
  | .fire t => if s.timer = some t then some (timerFire s) else none
  | .done t =>
      if s.isProcessing then
        match s.timer with
        | some ft => if ft < t then none else some (regenComplete s)
        | none => some (regenComplete s)
      else none

/-- Run of a whole trace. -/
def wrun (w : Nat) (s : WatchState) : List WEvent → Option WatchState
  | [] => some s
  | e :: es => (wstep w s e).bind fun s' => wrun w s' es

/-- A session is quiescent when no regeneration is in flight and no timer
is pending. -/
def quiescent (s : WatchState) : Prop :=
  s.isProcessing = false ∧ s.timer = none

/-- Times of the filesystem events of a trace, in trace order. -/
def fsTimes : List WEvent → List Nat
  | [] => []
  | .fs t :: es => t :: fsTimes es
  | .fire _ :: es => fsTimes es
  | .done _ :: es => fsTimes es

/-- Times at which the debounce timer fires in a trace, in trace order. -/
def fireTimes : List WEvent → List Nat
  | [] => []
  | .fire t :: es => t :: fireTimes es
  | .fs _ :: es => fireTimes es
  | .done _ :: es => fireTimes es

/-- Deadline reached after a burst: each filesystem event moves the
pending fire time to its own time plus the window. -/
def endDeadline (w : Nat) : List Nat → Nat → Nat
  | [], d => d
  | t :: ts, _ => endDeadline w ts (t + w)

theorem fsTimes_sublist (tr : List WEvent) :
    List.Sublist (fsTimes tr) (tr.map wtime) := by
  induction tr with
  | nil => simp [fsTimes]
  | cons e es ih =>
      cases e with
      | fs t => exact List.Sublist.cons₂ t ih
      | fire t => exact List.Sublist.cons _ ih
      | done t => exact List.Sublist.cons _ ih

theorem wrun_noFs (w : Nat) :
    ∀ (tr : List WEvent) (s sf : WatchState), wrun w s tr = some sf →
      fsTimes tr = [] → s.timer = none →
      sf.regens = s.regens ∧ fireTimes tr = [] := by
  intro tr
  induction tr with
  | nil =>
      intro s sf hrun _ _
      simp [wrun] at hrun
      subst hrun
      exact ⟨rfl, rfl⟩
  | cons e es ih =>
      intro s sf hrun hfs htimer
      cases e with
      | fs t => simp [fsTimes] at hfs
      | fire t => simp [wrun, wstep, htimer] at hrun
      | done t =>
          simp only [wrun, wstep] at hrun
          cases hb : s.isProcessing
          · rw [hb] at hrun
            simp at hrun
          · rw [hb, htimer] at hrun
            simp at hrun
            have hrec := ih (regenComplete s) sf hrun
              (by simpa [fsTimes] using hfs)
              (by simp [regenComplete, htimer])
            exact ⟨hrec.1, by simpa [fireTimes] using hrec.2⟩

theorem wrun_burst (w lo hi : Nat) (hwin : hi < lo + w) :
    ∀ (tr : List WEvent) (s sf : WatchState) (ts : List Nat) (d : Nat),
      wrun w s tr = some sf → quiescent sf →
      List.Pairwise (fun a b => a ≤ b) (tr.map wtime) →
      fsTimes tr = ts →
      s.isProcessing = false → s.timer = some d → s.regens = 0 →
      (∀ t ∈ ts, t < d ∧ lo ≤ t ∧ t ≤ hi) →
      sf.regens = 1 ∧ fireTimes tr = [endDeadline w ts d] := by
  intro tr
  induction tr with
  | nil =>
      intro s sf ts d hrun hq _ _ _ htimer _ _
      simp [wrun] at hrun
      subst hrun
      simp [quiescent, htimer] at hq
  | cons e es ih =>
      intro s sf ts d hrun hq hchron hfs hbusy htimer hreg hts
      cases e with
      | fs t =>
          have hfs' : t :: fsTimes es = ts := hfs
          have htmem : t ∈ ts := by rw [← hfs']; simp
          have htlt : t < d := (hts t htmem).1
          have htlo : lo ≤ t := (hts t htmem).2.1
          simp only [wrun, wstep, htimer] at hrun
          rw [if_neg (by omega)] at hrun
          simp [processChanges, hbusy] at hrun
          have hrec := ih ⟨false, some (t + w), s.changeCount, s.regens⟩
            sf (fsTimes es) (t + w) hrun hq
            (by
              rw [List.map_cons] at hchron
              exact (List.pairwise_cons.mp hchron).2)
            rfl rfl rfl hreg
            (by
              intro u hu
              have humem : u ∈ ts := by rw [← hfs']; exact List.mem_cons_of_mem t hu
              have := hts u humem
              exact ⟨by omega, this.2.1, this.2.2⟩)
          refine ⟨hrec.1, ?_⟩
          rw [← hfs']
          simpa [fireTimes, endDeadline] using hrec.2
      | fire t =>
          simp only [wrun, wstep, htimer] at hrun
          by_cases hdt : d = t
          · subst hdt
            simp at hrun
            cases hcase : fsTimes es with
            | nil =>
                have hfs' : ts = [] := by rw [← hfs]; simpa [fsTimes] using hcase
                have hnof := wrun_noFs w es (timerFire s) sf hrun hcase
                  (by simp [timerFire])
                refine ⟨by rw [hnof.1]; simp [timerFire, hreg], ?_⟩
                rw [hfs']
                simp [fireTimes, endDeadline, hnof.2]
            | cons u us =>
                have humem : u ∈ ts := by
                  rw [← hfs]
                  simp only [fsTimes]
                  rw [hcase]
                  simp
                have hud : u < d := (hts u humem).1
                have humap : u ∈ es.map wtime := by
                  have hsub := fsTimes_sublist es
                  exact hsub.subset (by rw [hcase]; simp)
                have hle : d ≤ u := by
                  rw [List.map_cons] at hchron
                  have := (List.pairwise_cons.mp hchron).1 u humap
                  simpa [wtime] using this
                omega
          · simp [hdt] at hrun
      | done t =>
          simp only [wrun, wstep, hbusy] at hrun
          simp at hrun

/-- C9: in the idle state, a burst of five qualifying change events all
arriving within the debounce window of the first leads to exactly one
regeneration, whose timer fires only once the window has elapsed after the
final event: every admissible, chronologically ordered trace whose
filesystem events are exactly the five given ones and that ends quiescent
performs exactly one regeneration, with the single timer expiry at the
time of the fifth event plus the window. -/
theorem c9_debounce_coalescing (w t₁ t₂ t₃ t₄ t₅ : Nat) (tr : List WEvent)
    (sf : WatchState)
    (hrun : wrun w ⟨false, none, 0, 0⟩ tr = some sf)
    (hq : quiescent sf)
    (hchron : List.Pairwise (fun a b => a ≤ b) (tr.map wtime))
    (hfs : fsTimes tr = [t₁, t₂, t₃, t₄, t₅])
    (hwin : t₅ < t₁ + w) :
    sf.regens = 1 ∧ fireTimes tr = [t₅ + w] := by
  have hord : List.Pairwise (fun a b => a ≤ b) [t₁, t₂, t₃, t₄, t₅] := by
    rw [← hfs]
    exact List.Pairwise.sublist (fsTimes_sublist tr) hchron
  cases tr with
  | nil => simp [fsTimes] at hfs
  | cons e es =>
      cases e with
      | fire t => simp [wrun, wstep] at hrun
      | done t => simp [wrun, wstep] at hrun
      | fs t =>
          have hfs1 : t = t₁ ∧ fsTimes es = [t₂, t₃, t₄, t₅] := by
            have h5 : t :: fsTimes es = [t₁, t₂, t₃, t₄, t₅] := hfs
            exact ⟨by simpa using congrArg List.head? h5,
              by simpa using congrArg List.tail h5⟩
          obtain ⟨rfl, hfs2⟩ := hfs1
          simp [wrun, wstep, processChanges] at hrun
          simp [List.pairwise_cons] at hord
          have hrec := wrun_burst w t (t₅ : Nat) hwin es
            ⟨false, some (t + w), 0, 0⟩ sf [t₂, t₃, t₄, t₅] (t + w) hrun hq
            (by
              rw [List.map_cons] at hchron
              exact (List.pairwise_cons.mp hchron).2)
            hfs2 rfl rfl rfl
            (by
              intro u hu
              simp at hu
              rcases hu with rfl | rfl | rfl | rfl <;>
                exact ⟨by omega, by omega, by omega⟩)
          exact ⟨hrec.1, by simpa [fireTimes, endDeadline] using hrec.2⟩

/-- Concrete five-event burst: five filesystem events within 300ms of the
first, then the single timer expiry and the completion of the run. -/
def watchTrace : List WEvent :=
  [.fs 0, .fs 50, .fs 100, .fs 150, .fs 200, .fire 500, .done 600]

/-- Witness for C9: the burst trace watchTrace, run with window 300 from
the idle state, performs exactly one regeneration and its timer fires at
200 + 300. -/
theorem c9_debounce_coalescing_witness :
    (⟨false, none, 1, 1⟩ : WatchState).regens = 1 ∧
      fireTimes watchTrace = [200 + 300] :=
  c9_debounce_coalescing 300 0 50 100 150 200 watchTrace ⟨false, none, 1, 1⟩
    (by decide) ⟨rfl, rfl⟩ (by decide) (by decide) (by decide)

/-- Counterexample for C8 as stated: with a regeneration in flight (busy
flag set, no timer pending), a qualifying event arriving at time 310 with
window 300 leaves the state untouched; in particular the debounce timer is
not reset to 310 + 300 — the event is dropped before the clearTimeout and
setTimeout calls are reached (src/cli.ts lines 254-259). -/
theorem c8_busy_counterexample :
    processChanges 300 310 ⟨true, none, 1, 1⟩ = ⟨true, none, 1, 1⟩ ∧
      (processChanges 300 310 ⟨true, none, 1, 1⟩).timer ≠ some (310 + 300) := by
  decide

/-- C8 (amended): while a regeneration is in flight, a qualifying
filesystem event is dropped entirely: processChanges returns with the
state unchanged, so the debounce timer is neither reset nor extended and
no follow-up regeneration is scheduled by that event. -/
theorem c8_busy_event_dropped (w now : Nat) (s : WatchState)
    (h : s.isProcessing = true) : processChanges w now s = s := by
  simp [processChanges, h]

/-- Witness for the amended C8 at a concrete busy state. -/
theorem c8_busy_event_dropped_witness :
    processChanges 300 310 ⟨true, none, 0, 0⟩ = ⟨true, none, 0, 0⟩ :=
  c8_busy_event_dropped 300 310 ⟨true, none, 0, 0⟩ rfl

/-- Per-file content contribution of the loop: the entry appended for the
file, when the file is short enough, stats successfully and is not
excluded. -/
def entryOf (excluded : List String) (env : Env) (file : String) :
    Option Content :=
  if 259 < file.length then none
  else
    match env.stat file with
    | none => none
    | some stats =>
        if doExcludeFile excluded (env.rel file) then none
        else some ⟨env.rel file, stats.size, getWindowsFileTime stats.mtimeMs⟩

/-- Per-file size contribution to the running total: the stat size of
every file of admissible path length that stats successfully, excluded or
not. -/
def weightOf (env : Env) (file : String) : Nat :=
  if 259 < file.length then 0
  else
    match env.stat file with
    | none => 0
    | some stats => stats.size

/-- Whether the loop counts the file as skipped (excludedCount): a failed
stat or an excluded file, for files of admissible path length. -/
def isSkipped (excluded : List String) (env : Env) (file : String) : Bool :=
  if 259 < file.length then false
  else
    match env.stat file with
    | none => true
    | some _ => doExcludeFile excluded (env.rel file)

/-- Whether the file path exceeds the legacy length ceiling. -/
def isLong (file : String) : Bool := decide (259 < file.length)

theorem processFile_total (excluded : List String) (env : Env)
    (s : BuildSt) (f : String) :
    (processFile excluded env s f).totalPackageSize =
      s.totalPackageSize + weightOf env f := by
  unfold processFile weightOf
  split
  · simp
  · cases env.stat f
    · simp
    · simp only []
      split <;> simp

theorem processFile_content (excluded : List String) (env : Env)
    (s : BuildSt) (f : String) :
    (processFile excluded env s f).content =
      s.content ++ (entryOf excluded env f).toList := by
  unfold processFile entryOf
  split
  · simp
  · cases env.stat f
    · simp
    · simp only []
      split <;> simp

theorem processFile_long (excluded : List String) (env : Env)
    (s : BuildSt) (f : String) :
    (processFile excluded env s f).hasLongPath =
      (s.hasLongPath || isLong f) := by
  unfold processFile isLong
  split
  · simp_all
  · cases env.stat f
    · simp_all
    · simp only []
      split <;> simp_all

theorem processFile_skip (excluded : List String) (env : Env)
    (s : BuildSt) (f : String) :
    (processFile excluded env s f).excludedCount =
      s.excludedCount + (if isSkipped excluded env f then 1 else 0) := by
  unfold processFile isSkipped
  split
  · simp
  · cases env.stat f
    · simp
    · simp only []
      split <;> simp

theorem foldl_processFile_total (excluded : List String) (env : Env) :
    ∀ (files : List String) (s : BuildSt),
      (files.foldl (processFile excluded env) s).totalPackageSize =
        s.totalPackageSize + (files.map (weightOf env)).sum := by
  intro files
  induction files with
  | nil => intro s; simp
  | cons f fs ih =>
      intro s
      rw [List.foldl_cons, ih, processFile_total]
      simp [Nat.add_assoc]

theorem foldl_processFile_content (excluded : List String) (env : Env) :
    ∀ (files : List String) (s : BuildSt),
      (files.foldl (processFile excluded env) s).content =
        s.content ++ files.filterMap (entryOf excluded env) := by
  intro files
  induction files with
  | nil => intro s; simp
  | cons f fs ih =>
      intro s
      rw [List.foldl_cons, ih, processFile_content]
      cases h : entryOf excluded env f <;>
        simp [List.filterMap_cons, h]

theorem foldl_processFile_long (excluded : List String) (env : Env) :
    ∀ (files : List String) (s : BuildSt),
      (files.foldl (processFile excluded env) s).hasLongPath =
        (s.hasLongPath || files.any isLong) := by
  intro files
  induction files with
  | nil => intro s; simp
  | cons f fs ih =>
      intro s
      rw [List.foldl_cons, ih, processFile_long]
      simp [Bool.or_assoc]

theorem foldl_processFile_skip (excluded : List String) (env : Env) :
    ∀ (files : List String) (s : BuildSt),
      (files.foldl (processFile excluded env) s).excludedCount =
        s.excludedCount + files.countP (isSkipped excluded env) := by
  intro files
  induction files with
  | nil => intro s; simp
  | cons f fs ih =>
      intro s
      rw [List.foldl_cons, ih, processFile_skip]
      rw [List.countP_cons]
      omega

theorem buildContent_total (excluded : List String) (env : Env)
    (files : List String) :
    (buildContent excluded env files).totalPackageSize =
      (files.map (weightOf env)).sum := by
  unfold buildContent
  rw [foldl_processFile_total]
  simp

theorem buildContent_content (excluded : List String) (env : Env)
    (files : List String) :
    (buildContent excluded env files).content =
      files.filterMap (entryOf excluded env) := by
  unfold buildContent
  rw [foldl_processFile_content]
  rfl

theorem buildContent_skip (excluded : List String) (env : Env)
    (files : List String) :
    (buildContent excluded env files).excludedCount =
      files.countP (isSkipped excluded env) := by
  unfold buildContent
  rw [foldl_processFile_skip]
  simp

/-- C10: with returnResult enabled, processLayout always returns a
ProcessResult, and that result satisfies: success false implies fileCount
and totalSize are zero and a message is present; success true implies no
message is present. -/
theorem c10_result_invariant (excluded : List String) (packageDir : String)
    (env : Env) (options : ProcessOptions) (h : options.returnResult = true) :
    (∃ r, (processLayout excluded packageDir env options).2 = .ret r) ∧
      ∀ r, (processLayout excluded packageDir env options).2 = .ret r →
        (r.success = false →
          r.fileCount = 0 ∧ r.totalSize = 0 ∧ r.message.isSome = true) ∧
        (r.success = true → r.message = none) := by
  refine ⟨?_, ?_⟩
  · simp only [processLayout, processScanned, h, eq_self_iff_true, if_true]
    repeat' split
    all_goals exact ⟨_, rfl⟩
  · intro r hr
    simp only [processLayout, processScanned, h, eq_self_iff_true, if_true] at hr
    repeat' split at hr
    all_goals
      injection hr with h'
      subst h'
      exact ⟨fun hs => by simp_all, fun hs => by simp_all⟩

/-- The five validation-failure conditions of C5: missing root, missing
metadata document while checkManifest is on, existing layout without
force, empty scan, and no valid file surviving the loop. -/
def validationFailure (excluded : List String) (env : Env)
    (options : ProcessOptions) : Prop :=
  env.rootExists = false ∨
    (options.checkManifest = true ∧ env.manifestExists = false) ∨
    (env.layoutExists = true ∧ options.force = false) ∨
    env.scan = .ok [] ∨
    (∃ files, env.scan = .ok files ∧
      (buildContent excluded env files).content = [])

/-- C5 (amended): on every validation failure processLayout writes neither
document, and reports the condition as a thrown Error or as a
success:false result carrying a message — except the existing-layout skip
in fire-and-forget mode, which merely logs a warning and returns void
(processLayout.ts lines 112-126), producing neither a thrown error nor a
result. -/
theorem c5_validation_no_write (excluded : List String) (packageDir : String)
    (env : Env) (options : ProcessOptions)
    (h : validationFailure excluded env options) :
    (processLayout excluded packageDir env options).1.layoutWrite = none ∧
      (processLayout excluded packageDir env options).1.layoutJson = none ∧
      (processLayout excluded packageDir env options).1.manifestWrite = none ∧
      ((∃ msg, (processLayout excluded packageDir env options).2 =
          .thrown (.error msg)) ∨
        (∃ r, (processLayout excluded packageDir env options).2 = .ret r ∧
          r.success = false ∧ r.message.isSome = true) ∨
        (options.returnResult = false ∧ env.layoutExists = true ∧
          options.force = false ∧
          (processLayout excluded packageDir env options).2 = .unit)) := by
  simp only [processLayout, processScanned]
  repeat' split
  all_goals
    first
    | exact ⟨rfl, rfl, rfl, Or.inl ⟨_, rfl⟩⟩
    | exact ⟨rfl, rfl, rfl, Or.inr (Or.inl ⟨_, rfl, rfl, rfl⟩)⟩
    | (refine ⟨rfl, rfl, rfl, Or.inr (Or.inr ⟨?_, ?_, ?_, rfl⟩)⟩ <;> simp_all)
    | (rcases h with h | ⟨h1, h2⟩ | ⟨h1, h2⟩ | h | ⟨files, hsc, hcont⟩ <;>
        simp_all)

/-- Concrete environment: root "p" with a manifest (no total key), no
existing layout, and two statting files B.txt and a.txt. -/
def envA : Env :=
  ⟨true, true, false, .ok ["p/B.txt", "p/a.txt"],
    fun f => if f = "p/B.txt" then some ⟨1, 0⟩ else some ⟨2, 0⟩,
    fun f => if f = "p/B.txt" then "B.txt" else "a.txt",
    some ⟨none, []⟩, none⟩

/-- Concrete environment: like envA but a layout document already exists. -/
def envSkip : Env :=
  ⟨true, true, true, .ok ["p/B.txt", "p/a.txt"],
    fun f => if f = "p/B.txt" then some ⟨1, 0⟩ else some ⟨2, 0⟩,
    fun f => if f = "p/B.txt" then "B.txt" else "a.txt",
    some ⟨none, []⟩, none⟩

/-- Counterexample for C5 as stated: with a layout document already
present and force off, the fire-and-forget mode (returnResult = false) is
a validation failure in the claim's taxonomy, yet the run returns void —
it neither throws nor returns a success:false result, so the condition is
not reported in either of the claimed two ways (only a console warning is
printed, processLayout.ts lines 112-126). -/
theorem c5_skip_counterexample :
    validationFailure ["thumbs.db"] envSkip {} ∧
      (processLayout ["thumbs.db"] "p" envSkip {}).2 = .unit := by
  constructor
  · exact Or.inr (Or.inr (Or.inl ⟨rfl, rfl⟩))
  · decide

/-- Witness for the amended C5 at the concrete skip environment. -/
theorem c5_validation_no_write_witness :
    (processLayout ["thumbs.db"] "p" envSkip {}).1.layoutWrite = none ∧
      (processLayout ["thumbs.db"] "p" envSkip {}).1.layoutJson = none ∧
      (processLayout ["thumbs.db"] "p" envSkip {}).1.manifestWrite = none ∧
      ((∃ msg, (processLayout ["thumbs.db"] "p" envSkip {}).2 =
          .thrown (.error msg)) ∨
        (∃ r, (processLayout ["thumbs.db"] "p" envSkip {}).2 = .ret r ∧
          r.success = false ∧ r.message.isSome = true) ∨
        (({} : ProcessOptions).returnResult = false ∧
          envSkip.layoutExists = true ∧ ({} : ProcessOptions).force = false ∧
          (processLayout ["thumbs.db"] "p" envSkip {}).2 = .unit)) :=
  c5_validation_no_write ["thumbs.db"] "p" envSkip {}
    (Or.inr (Or.inr (Or.inl ⟨rfl, rfl⟩)))

theorem entryOf_path (excluded : List String) (env : Env) (f : String)
    (c : Content) (h : entryOf excluded env f = some c) :
    c.path = env.rel f := by
  unfold entryOf at h
  split at h
  · simp at h
  · cases hs : env.stat f <;> simp only [hs] at h
    · simp at h
    · split at h
      · simp at h
      · injection h with h'
        rw [← h']

theorem processScanned_scan_irrel (excluded : List String)
    (packageDir : String) (options : ProcessOptions) (a b c : Bool)
    (s₁ s₂ : Except String (List String)) (st : String → Option FileStat)
    (rel : String → String) (md : Option Manifest) (we : Option String)
    (sr : Except String (List String)) :
    processScanned excluded packageDir ⟨a, b, c, s₁, st, rel, md, we⟩
        options sr =
      processScanned excluded packageDir ⟨a, b, c, s₂, st, rel, md, we⟩
        options sr := rfl

theorem processScanned_perm (excluded : List String) (packageDir : String)
    (env : Env) (options : ProcessOptions) (files files' : List String)
    (hperm : files.Perm files')
    (hdist : files.Pairwise (fun f g => env.rel f ≠ env.rel g)) :
    processScanned excluded packageDir env options (.ok files) =
      processScanned excluded packageDir env options (.ok files') := by
  have h_total : (buildContent excluded env files).totalPackageSize =
      (buildContent excluded env files').totalPackageSize := by
    rw [buildContent_total, buildContent_total]
    exact (hperm.map (weightOf env)).sum_eq
  have h_skip : (buildContent excluded env files).excludedCount =
      (buildContent excluded env files').excludedCount := by
    rw [buildContent_skip, buildContent_skip]
    exact hperm.countP_eq _
  have h_cperm : (buildContent excluded env files).content.Perm
      (buildContent excluded env files').content := by
    rw [buildContent_content, buildContent_content]
    exact hperm.filterMap _
  have h_clen : (buildContent excluded env files).content.length =
      (buildContent excluded env files').content.length := h_cperm.length_eq
  have h_cpw : (buildContent excluded env files).content.Pairwise
      (fun a b => a.path ≠ b.path) := by
    rw [buildContent_content, List.pairwise_filterMap]
    refine hdist.imp ?_
    intro f g hfg c hc d hd
    rw [Option.mem_def] at hc hd
    rw [entryOf_path _ _ _ _ hc, entryOf_path _ _ _ _ hd]
    exact hfg
  have h_sorted : List.insertionSort contentLe
        (buildContent excluded env files).content =
      List.insertionSort contentLe
        (buildContent excluded env files').content := by
    apply sorted_perm_pairwise_eq
    · exact ((List.perm_insertionSort _ _).trans h_cperm).trans
        (List.perm_insertionSort _ _).symm
    · exact List.sorted_insertionSort _ _
    · exact List.sorted_insertionSort _ _
    · exact ((List.perm_insertionSort contentLe _).pairwise_iff
        (fun h => h.symm)).mpr h_cpw
  simp only [processScanned]
  rw [hperm.length_eq]
  by_cases hlen : files'.length = 0
  · simp [hlen]
  · rw [if_neg hlen, if_neg hlen, h_clen]
    by_cases hcl : (buildContent excluded env files').content.length = 0
    · rw [if_pos hcl, if_pos hcl, h_skip]
    · rw [if_neg hcl, if_neg hcl, h_sorted, h_total, h_skip]

/-- Ordinal (byte/code-point) string comparison of C1 as stated: the
lexicographic order on the code points of the two strings. -/
def ordinalLe (a b : String) : Prop :=
  cmpList cmpNat (a.data.map Char.toNat) (b.data.map Char.toNat) ≠ .gt

instance : DecidableRel ordinalLe := fun a b =>
  inferInstanceAs (Decidable (cmpList cmpNat (a.data.map Char.toNat)
    (b.data.map Char.toNat) ≠ Ordering.gt))

/-- Ordinal sortedness predicate of C1 as stated: ascending by ordinal
code-point comparison of the path fields. -/
def ordinalSorted (l : List Content) : Prop :=
  l.Pairwise (fun a b => ordinalLe a.path b.path)

/-- Counterexample for C1 as stated: on a root with the two files B.txt and
a.txt, the written content array is [a.txt, B.txt] — localeCompare puts the
lower-case a before the upper-case B — which is not sorted by ordinal
code-point comparison, because the code point of B (66) precedes that of
a (97).  The sort at processLayout.ts line 223 uses
a.path.localeCompare(b.path), not ordinal comparison. -/
theorem c1_ordinal_counterexample :
    (processLayout ["thumbs.db"] "p" envA {}).1.layoutWrite =
      some [⟨"a.txt", 2, 116444736000000000⟩,
        ⟨"B.txt", 1, 116444736000000000⟩] ∧
      ¬ ordinalSorted [⟨"a.txt", 2, 116444736000000000⟩,
        ⟨"B.txt", 1, 116444736000000000⟩] := by
  constructor
  · decide
  · intro hs
    have hpair := (List.pairwise_cons.mp hs).1
      ⟨"B.txt", 1, 116444736000000000⟩ (by simp)
    revert hpair
    decide

/-- C1 (amended): every content array the run writes is sorted ascending
by the locale-aware localeCompare comparison of the path fields (not by
ordinal code-point comparison), and the run is deterministic: as long as
no two scanned files share a relative path, permuting the filesystem
enumeration order changes nothing — effects and outcome are identical. -/
theorem c1_sorted_deterministic (excluded : List String)
    (packageDir : String) (env : Env) (options : ProcessOptions)
    (files files' : List String)
    (hscan : env.scan = .ok files) (hperm : files.Perm files')
    (hdist : files.Pairwise (fun f g => env.rel f ≠ env.rel g)) :
    (∀ l, (processLayout excluded packageDir env options).1.layoutWrite =
        some l → l.Sorted contentLe) ∧
      processLayout excluded packageDir env options =
        processLayout excluded packageDir { env with scan := .ok files' }
          options := by
  constructor
  · intro l hl
    simp only [processLayout, processScanned] at hl
    repeat' split at hl
    all_goals
      simp [noEffects] at hl
      try
        subst hl
        exact List.sorted_insertionSort _ _
  · obtain ⟨er, em, el, es, est, erel, emd, ewe⟩ := env
    simp only at hscan
    subst hscan
    simp only [processLayout]
    repeat' split
    all_goals try rfl
    exact (processScanned_scan_irrel excluded packageDir options er em el
        _ (.ok files') est erel emd ewe (.ok files)).trans
      (processScanned_perm excluded packageDir
        ⟨er, em, el, .ok files', est, erel, emd, ewe⟩ options files files'
        hperm hdist)

/-- Witness for the amended C1 at the concrete environment envA: the
written array is localeCompare-sorted, and reversing the enumeration
order produces the identical effects and outcome. -/
theorem c1_sorted_deterministic_witness :
    List.Sorted contentLe [⟨"a.txt", 2, 116444736000000000⟩,
        ⟨"B.txt", 1, 116444736000000000⟩] ∧
      processLayout ["thumbs.db"] "p" envA {} =
        processLayout ["thumbs.db"] "p"
          { envA with scan := .ok ["p/a.txt", "p/B.txt"] } {} :=
  ⟨(c1_sorted_deterministic ["thumbs.db"] "p" envA {}
      ["p/B.txt", "p/a.txt"] ["p/a.txt", "p/B.txt"] rfl
      (List.Perm.swap _ _ _) (by decide)).1 _ (by decide),
    (c1_sorted_deterministic ["thumbs.db"] "p" envA {}
      ["p/B.txt", "p/a.txt"] ["p/a.txt", "p/B.txt"] rfl
      (List.Perm.swap _ _ _) (by decide)).2⟩

/-- C2: when the enumeration succeeds but one individual file of
admissible path length fails to stat, the run never raises a
directory-read error; the file contributes nothing to the running total or
the content list — both equal those of the same run without the file — it
is counted once in the skipped-file counter, and the loop continues over
the remaining files. -/
theorem c2_stat_failure_nonfatal (excluded : List String)
    (packageDir : String) (env : Env) (options : ProcessOptions)
    (msg : String) (l₁ l₂ : List String) (f : String)
    (hscan : env.scan = .ok (l₁ ++ f :: l₂))
    (hstat : env.stat f = none)
    (hlen : f.length ≤ 259) :
    (buildContent excluded env (l₁ ++ f :: l₂)).totalPackageSize =
        (buildContent excluded env (l₁ ++ l₂)).totalPackageSize ∧
      (buildContent excluded env (l₁ ++ f :: l₂)).content =
        (buildContent excluded env (l₁ ++ l₂)).content ∧
      (buildContent excluded env (l₁ ++ f :: l₂)).excludedCount =
        (buildContent excluded env (l₁ ++ l₂)).excludedCount + 1 ∧
      (processLayout excluded packageDir env options).2 ≠
        .thrown (.readingDirError msg) := by
  have hnl : ¬ 259 < f.length := by omega
  have hw : weightOf env f = 0 := by
    simp [weightOf, hstat, hnl]
  have he : entryOf excluded env f = none := by
    simp [entryOf, hstat, hnl]
  have hsk : isSkipped excluded env f = true := by
    simp [isSkipped, hstat, hnl]
  refine ⟨?_, ?_, ?_, ?_⟩
  · rw [buildContent_total, buildContent_total]
    simp [hw]
  · rw [buildContent_content, buildContent_content]
    simp [he]
  · rw [buildContent_skip, buildContent_skip]
    rw [List.countP_append, List.countP_append, List.countP_cons]
    simp [hsk]
    omega
  · intro hcon
    simp only [processLayout, processScanned] at hcon
    repeat' split at hcon
    all_goals simp_all

/-- Concrete environment for C2: three files, the middle one vanishing
between listing and stat (its stat fails). -/
def envStat : Env :=
  ⟨true, true, false, .ok ["p/a.txt", "p/bad.txt", "p/c.txt"],
    fun f => if f = "p/bad.txt" then none
      else if f = "p/a.txt" then some ⟨2, 0⟩ else some ⟨3, 0⟩,
    fun f => if f = "p/a.txt" then "a.txt"
      else if f = "p/bad.txt" then "bad.txt" else "c.txt",
    some ⟨none, []⟩, none⟩

/-- Witness for C2 at the concrete environment envStat. -/
theorem c2_stat_failure_nonfatal_witness :
    (buildContent ["thumbs.db"] envStat
        (["p/a.txt"] ++ "p/bad.txt" :: ["p/c.txt"])).totalPackageSize =
        (buildContent ["thumbs.db"] envStat
          (["p/a.txt"] ++ ["p/c.txt"])).totalPackageSize ∧
      (buildContent ["thumbs.db"] envStat
          (["p/a.txt"] ++ "p/bad.txt" :: ["p/c.txt"])).content =
        (buildContent ["thumbs.db"] envStat
          (["p/a.txt"] ++ ["p/c.txt"])).content ∧
      (buildContent ["thumbs.db"] envStat
          (["p/a.txt"] ++ "p/bad.txt" :: ["p/c.txt"])).excludedCount =
        (buildContent ["thumbs.db"] envStat
          (["p/a.txt"] ++ ["p/c.txt"])).excludedCount + 1 ∧
      (processLayout ["thumbs.db"] "p" envStat {}).2 ≠
        .thrown (.readingDirError "boom") :=
  c2_stat_failure_nonfatal ["thumbs.db"] "p" envStat {} "boom"
    ["p/a.txt"] ["p/c.txt"] "p/bad.txt" rfl (by decide) (by decide)

/-- Concrete environment for C3: the manifest file exists but its content
is malformed, so readFile + JSON.parse fails (manifestDoc = none). -/
def envMalformed : Env :=
  ⟨true, true, false, .ok ["p/B.txt", "p/a.txt"],
    fun f => if f = "p/B.txt" then some ⟨1, 0⟩ else some ⟨2, 0⟩,
    fun f => if f = "p/B.txt" then "B.txt" else "a.txt",
    none, none⟩

/-- C3 evaluated at its failing input: with a present but malformed
metadata document, doUpdateManifest does raise a ManifestWritingError, yet
processLayout swallows it in the catch at lines 241-246 (whose comment
reads: manifest does not exist, skip) and reports the run as success:true
with no message — exactly the treatment of a missing metadata document,
not a surfaced failure. -/
theorem c3_malformed_manifest_swallowed :
    doUpdateManifest "p/manifest.json" none 196 =
        .error "Failed to read JSON at p/manifest.json, size 196." ∧
      (processLayout ["thumbs.db"] "p" envMalformed
          { returnResult := true }).2 =
        .ret ⟨2, 196, "p/layout.json", "p/manifest.json", 0, true, none⟩ ∧
      (processLayout ["thumbs.db"] "p" envMalformed
          { returnResult := true }).1.manifestWrite = none := by
  refine ⟨rfl, by decide, by decide⟩

theorem weight_sum_eq_stats (env : Env) :
    ∀ files : List String, (∀ f ∈ files, (env.stat f).isSome = true) →
      (files.map (weightOf env)).sum =
        ((files.filter (fun f => decide (f.length ≤ 259))).filterMap
          (fun f => (env.stat f).map FileStat.size)).sum := by
  intro files
  induction files with
  | nil => intro _; rfl
  | cons f fs ih =>
      intro h
      have hf := h f (by simp)
      obtain ⟨st, hst⟩ := Option.isSome_iff_exists.mp hf
      have hrest := ih fun g hg => h g (List.mem_cons_of_mem _ hg)
      by_cases hl : 259 < f.length
      · have hnle : ¬ (f.length ≤ 259) := by omega
        simp [List.filter_cons, hnle, weightOf, hl, hrest]
      · have hle : f.length ≤ 259 := by omega
        simp [List.filter_cons, hle, List.filterMap_cons, hst, weightOf,
          hl, hrest]

/-- C4: on a successful run in which every scanned file stats, the
reported totalSize is the sum of the stat sizes of every scanned file of
path length at most 259 — the exclusion filter does not remove a file
from this sum — plus the byte length of the layout document written. -/
theorem c4_total_size (excluded : List String) (packageDir : String)
    (env : Env) (options : ProcessOptions) (files : List String)
    (r : ProcessResult)
    (hscan : env.scan = .ok files)
    (hstat : ∀ f ∈ files, (env.stat f).isSome = true)
    (hret : (processLayout excluded packageDir env options).2 = .ret r)
    (hsucc : r.success = true) :
    (processLayout excluded packageDir env options).1.layoutJson.isSome =
        true ∧
      r.totalSize =
        ((files.filter (fun f => decide (f.length ≤ 259))).filterMap
          (fun f => (env.stat f).map FileStat.size)).sum +
        ((processLayout excluded packageDir env
          options).1.layoutJson.getD "").utf8ByteSize := by
  have hmain : ∀ eff out,
      processLayout excluded packageDir env options = (eff, out) →
      out = .ret r →
      eff.layoutJson.isSome = true ∧
        r.totalSize =
          ((files.filter (fun f => decide (f.length ≤ 259))).filterMap
            (fun f => (env.stat f).map FileStat.size)).sum +
          (eff.layoutJson.getD "").utf8ByteSize := by
    intro eff out hpe hout
    simp only [processLayout, processScanned, hscan] at hpe
    repeat' split at hpe
    all_goals
      rw [Prod.mk.injEq] at hpe
      obtain ⟨h1, h2⟩ := hpe
      subst h1
      subst h2
      try simp at hout
      try subst hout
      try simp at hsucc
      try
        refine ⟨rfl, ?_⟩
        simp [buildContent_total, weight_sum_eq_stats env files hstat]
  exact hmain _ _ rfl hret

/-- Witness for C4 at the concrete environment envA: total 196 = 3 bytes
of file sizes plus the 193-byte layout document. -/
theorem c4_total_size_witness :
    (processLayout ["thumbs.db"] "p" envA
        { returnResult := true }).1.layoutJson.isSome = true ∧
      (⟨2, 196, "p/layout.json", "p/manifest.json", 0, true, none⟩ :
          ProcessResult).totalSize =
        ((["p/B.txt", "p/a.txt"].filter
            (fun f => decide (f.length ≤ 259))).filterMap
          (fun f => (envA.stat f).map FileStat.size)).sum +
        ((processLayout ["thumbs.db"] "p" envA
          { returnResult := true }).1.layoutJson.getD "").utf8ByteSize :=
  c4_total_size ["thumbs.db"] "p" envA { returnResult := true }
    ["p/B.txt", "p/a.txt"]
    ⟨2, 196, "p/layout.json", "p/manifest.json", 0, true, none⟩
    rfl (by decide) (by decide) rfl

/-- Witness for C10 at the concrete environment envA. -/
theorem c10_result_invariant_witness :
    (processLayout ["thumbs.db"] "p" envA { returnResult := true }).2 =
        .ret ⟨2, 196, "p/layout.json", "p/manifest.json", 0, true, none⟩ ∧
      (⟨2, 196, "p/layout.json", "p/manifest.json", 0, true, none⟩ :
          ProcessResult).message = none :=
  ⟨by decide,
    ((c10_result_invariant ["thumbs.db"] "p" envA { returnResult := true }
        rfl).2
      ⟨2, 196, "p/layout.json", "p/manifest.json", 0, true, none⟩
      (by decide)).2 rfl⟩
